import Mathlib

/-!
Verification of the frontmatter field inserter of `obsidian-social-archiver`
(`src/scripts/add-archive-yaml.py` and `src/scripts/add-like-yaml.py`).

Documents are modelled as lists of characters.  The two Python scripts are the
same routine instantiated at two (field, anchor) pairs, so the routine is
embedded once as `insertField` and instantiated twice, mirroring:

* `content.startswith('---')`                      → `startsWith sep content`
* `re.search(r'^key:', content, re.MULTILINE)`     → `searchLineStart key content`
* `content.split('---', 2)`                        → `split2 content`
* `'key:' in frontmatter`                          → `containsSub (key ++ [':']) frontmatter`
* `re.sub(r'(key:.*\n)', '\\1new\n', frontmatter)` → `subAnchor (key ++ [':']) new frontmatter`
* `frontmatter.rstrip()`                           → `rstrip frontmatter`
* `str(value).lower()`                             → `"true"` / `"false"`

The driver loop of `main` is embedded as `runAll` over an association-list
filesystem; entries may be flagged `ioError` to model a read that raises an
exception (caught by the per-file `try`/`except`).
-/

/-- Document contents, Python `str` modelled as a list of characters. -/
abbrev Str := List Char

/-- The frontmatter sentinel `---`. -/
def sep : Str := ['-', '-', '-']

/-- Python `s.startswith(p)`. -/
def startsWith : Str → Str → Bool
  | [], _ => true
  | _ :: _, [] => false
  | a :: p, b :: s => a == b && startsWith p s

/-- Python `p in s` (substring containment). -/
def containsSub (pat : Str) : Str → Bool
  | [] => pat.isEmpty
  | s@(_ :: t) => startsWith pat s || containsSub pat t

/-- Strip a literal leading `p` from `s`, returning the remainder on success. -/
def dropPre : Str → Str → Option Str
  | [], s => some s
  | _ :: _, [] => none
  | a :: p, b :: s => if a == b then dropPre p s else none

/-- Split `s` at the leftmost occurrence of `sp`: `some (before, after)`,
`none` when `sp` does not occur.  This is the one-step core of Python
`str.split(sp, maxsplit)`. -/
def splitFirst (sp : Str) : Str → Option (Str × Str)
  | [] =>
    match dropPre sp [] with
    | some r => some ([], r)
    | none => none
  | c :: t =>
    match dropPre sp (c :: t) with
    | some r => some ([], r)
    | none =>
      match splitFirst sp t with
      | some (a, b) => some (c :: a, b)
      | none => none

/-- Python `content.split('---', 2)`. -/
def split2 (content : Str) : List Str :=
  match splitFirst sep content with
  | none => [content]
  | some (a, r) =>
    match splitFirst sep r with
    | none => [a, r]
    | some (b, r2) => [a, b, r2]

/-- Python `re.search(r'^key:', content, re.MULTILINE)`: the literal `key:`
occurs at the start of the string or right after a newline. -/
def searchLineStart (key : Str) (content : Str) : Bool :=
  startsWith (key ++ [':']) content || containsSub ('\n' :: (key ++ [':'])) content

/-- Whitespace characters stripped by Python `str.rstrip()` (ASCII range). -/
def isPySpace (c : Char) : Bool :=
  c == ' ' || c == '\t' || c == '\n' || c == '\r' || c == Char.ofNat 11 || c == Char.ofNat 12

/-- Python `s.rstrip()`. -/
def rstrip (s : Str) : Str :=
  (s.reverse.dropWhile isPySpace).reverse

/-- The inserted line `f'{field}: {str(value).lower()}\n'`. -/
def newLine (fieldName : Str) (value : Bool) : Str :=
  fieldName ++ [':', ' '] ++ (if value then "true".data else "false".data) ++ ['\n']

/-- Fuel-driven worker for `subAnchor`; the fuel only makes the recursion
structural and is irrelevant once it is at least the length of the input. -/
def subAnchorF (pat ins : Str) : Nat → Str → Str
  | 0, s => s
  | fuel + 1, s =>
    match splitFirst pat s with
    | none => s
    | some (a, r) =>
      match splitFirst ['\n'] r with
      | none => s
      | some (line, rest) =>
        a ++ pat ++ line ++ '\n' :: (ins ++ subAnchorF pat ins fuel rest)

/-- Python `re.sub(r'(pat.*\n)', '\\1' + ins, s)`: after every non-overlapping
leftmost match of `pat` followed by the rest of its line and a newline, insert
`ins`; scanning resumes after the matched text. -/
def subAnchor (pat ins s : Str) : Str :=
  subAnchorF pat ins s.length s

/-- Per-document outcome of the inserter (the printed status lines). -/
inductive Outcome where
  /-- "No YAML frontmatter" / "Invalid YAML frontmatter". -/
  | malformedHeader
  /-- "field already exists". -/
  | alreadyPresent
  /-- The file is overwritten with the new content. -/
  | written (newContent : Str)
deriving DecidableEq

/-- The shared body of `add_archive_field` / `add_like_field` on in-memory
content: guards, split, anchored or appended insertion, reassembly. -/
def insertField (fieldName anchorName : Str) (value : Bool) (content : Str) : Outcome :=
  if startsWith sep content = false then
    Outcome.malformedHeader
  else if searchLineStart fieldName content = true then
    Outcome.alreadyPresent
  else
    match split2 content with
    | [_p0, fm, p2] =>
      let fmNew : Str :=
        if containsSub (anchorName ++ [':']) fm = true then
          subAnchor (anchorName ++ [':']) (newLine fieldName value) fm
        else
          rstrip fm ++ '\n' :: newLine fieldName value
      Outcome.written (sep ++ fmNew ++ sep ++ p2)
    | _ => Outcome.malformedHeader

/-- `add_archive_field` of `add-archive-yaml.py`: field `archive`, anchor `like`. -/
def add_archive_field (value : Bool) (content : Str) : Outcome :=
  insertField "archive".data "like".data value content

/-- `add_like_field` of `add-like-yaml.py`: field `like`, anchor `archive`. -/
def add_like_field (value : Bool) (content : Str) : Outcome :=
  insertField "like".data "archive".data value content

/-- The content after one run of the inserter: the written content on success,
the unchanged input otherwise. -/
def applyInsert (fieldName anchorName : Str) (value : Bool) (content : Str) : Str :=
  match insertField fieldName anchorName value content with
  | Outcome.written c => c
  | _ => content

/-- A file on disk: readable content, or a file whose read raises. -/
inductive Entry where
  | ok (content : Str)
  | ioError
deriving DecidableEq

/-- Per-file outcome of a driver step (the per-file status lines of `main`). -/
inductive FileOutcome where
  | notFound
  | ioFailure
  | malformedHeader
  | alreadyPresent
  | success
deriving DecidableEq

/-- Filesystem: association list from path to entry. -/
abbrev Fs := List (Str × Entry)

/-- Look a path up (`file_path.exists()` / `read_text`). -/
def lookupFs : Fs → Str → Option Entry
  | [], _ => none
  | (q, e) :: t, p => if q = p then some e else lookupFs t p

/-- Overwrite a path in place (`file_path.write_text`). -/
def setFs : Fs → Str → Entry → Fs
  | [], p, e => [(p, e)]
  | (q, e0) :: t, p, e => if q = p then (p, e) :: t else (q, e0) :: setFs t p e

/-- One iteration of `main`'s loop: existence check, then the guarded body of
`add_*_field` with its `try`/`except` catching read failures. -/
def processFile (fieldName anchorName : Str) (value : Bool) (fs : Fs) (p : Str) :
    Fs × FileOutcome :=
  match lookupFs fs p with
  | none => (fs, FileOutcome.notFound)
  | some Entry.ioError => (fs, FileOutcome.ioFailure)
  | some (Entry.ok content) =>
    match insertField fieldName anchorName value content with
    | Outcome.malformedHeader => (fs, FileOutcome.malformedHeader)
    | Outcome.alreadyPresent => (fs, FileOutcome.alreadyPresent)
    | Outcome.written c => (setFs fs p (Entry.ok c), FileOutcome.success)

/-- `main`'s loop over one target list, threading the filesystem and
collecting the per-file outcomes in order. -/
def runAll (fieldName anchorName : Str) (value : Bool) (fs : Fs) :
    List Str → Fs × List FileOutcome
  | [] => (fs, [])
  | p :: ps =>
    let step := processFile fieldName anchorName value fs p
    let rest := runAll fieldName anchorName value step.1 ps
    (rest.1, step.2 :: rest.2)

/-! ### Basic lemmas about the string primitives -/

theorem startsWith_iff (p s : Str) : startsWith p s = true ↔ ∃ t, s = p ++ t := by
  induction p generalizing s with
  | nil => simp [startsWith]
  | cons a p ih =>
    cases s with
    | nil => simp [startsWith]
    | cons b s' =>
      simp only [startsWith, Bool.and_eq_true, beq_iff_eq]
      constructor
      · rintro ⟨rfl, h⟩
        obtain ⟨t, rfl⟩ := (ih s').mp h
        exact ⟨t, rfl⟩
      · rintro ⟨t, h⟩
        injection h with h1 h2
        exact ⟨h1.symm, (ih s').mpr ⟨t, h2⟩⟩

theorem containsSub_iff (pat s : Str) : containsSub pat s = true ↔ ∃ u w, s = u ++ pat ++ w := by
  induction s with
  | nil =>
    simp only [containsSub, List.isEmpty_iff]
    constructor
    · rintro rfl
      exact ⟨[], [], rfl⟩
    · rintro ⟨u, w, h⟩
      have h' := List.append_eq_nil.mp h.symm
      exact (List.append_eq_nil.mp h'.1).2
  | cons c t ih =>
    simp only [containsSub, Bool.or_eq_true, startsWith_iff, ih]
    constructor
    · rintro (⟨w, hw⟩ | ⟨u, w, rfl⟩)
      · exact ⟨[], w, by simpa using hw⟩
      · exact ⟨c :: u, w, rfl⟩
    · rintro ⟨u, w, h⟩
      cases u with
      | nil => exact Or.inl ⟨w, by simpa using h⟩
      | cons x u' =>
        injection h with h1 h2
        exact Or.inr ⟨u', w, h2⟩

theorem dropPre_some {p s r : Str} (h : dropPre p s = some r) : s = p ++ r := by
  induction p generalizing s with
  | nil =>
    simp only [dropPre, Option.some.injEq] at h
    simp [h]
  | cons a p ih =>
    cases s with
    | nil => simp [dropPre] at h
    | cons b s' =>
      simp only [dropPre] at h
      split at h
      · rename_i hab
        have hab' : a = b := by simpa using hab
        subst hab'
        simp [ih h]
      · exact absurd h (by simp)

theorem dropPre_append (p t : Str) : dropPre p (p ++ t) = some t := by
  induction p with
  | nil => rfl
  | cons a p ih => simp [dropPre, ih]

theorem splitFirst_of_dropPre {sp s r : Str} (h : dropPre sp s = some r) :
    splitFirst sp s = some ([], r) := by
  cases s with
  | nil => simp [splitFirst, h]
  | cons c t => simp [splitFirst, h]

theorem splitFirst_eq {sp s a b : Str} (h : splitFirst sp s = some (a, b)) :
    s = a ++ sp ++ b := by
  induction s generalizing a b with
  | nil =>
    simp only [splitFirst] at h
    split at h
    · rename_i r heq
      simp only [Option.some.injEq, Prod.mk.injEq] at h
      obtain ⟨rfl, rfl⟩ := h
      simpa using dropPre_some heq
    · exact absurd h (by simp)
  | cons c t ih =>
    simp only [splitFirst] at h
    split at h
    · rename_i r heq
      simp only [Option.some.injEq, Prod.mk.injEq] at h
      obtain ⟨rfl, rfl⟩ := h
      simpa using dropPre_some heq
    · rename_i heq0
      split at h
      · rename_i a' b' heq
        simp only [Option.some.injEq, Prod.mk.injEq] at h
        obtain ⟨rfl, rfl⟩ := h
        simp [ih heq]
      · exact absurd h (by simp)

theorem splitFirst_leftmost {sp s a b : Str} (h : splitFirst sp s = some (a, b)) :
    ∀ u w, s = u ++ sp ++ w → a.length ≤ u.length := by
  induction s generalizing a b with
  | nil =>
    intro u w hw
    simp only [splitFirst] at h
    split at h
    · rename_i r heq
      simp only [Option.some.injEq, Prod.mk.injEq] at h
      obtain ⟨rfl, rfl⟩ := h
      simp
    · exact absurd h (by simp)
  | cons c t ih =>
    intro u w hw
    simp only [splitFirst] at h
    split at h
    · rename_i r heq
      simp only [Option.some.injEq, Prod.mk.injEq] at h
      obtain ⟨rfl, rfl⟩ := h
      simp
    · rename_i heq0
      split at h
      · rename_i a' b' heq
        simp only [Option.some.injEq, Prod.mk.injEq] at h
        obtain ⟨rfl, rfl⟩ := h
        cases u with
        | nil =>
          exfalso
          simp only [List.nil_append] at hw
          rw [hw] at heq0
          rw [dropPre_append sp w] at heq0
          exact Option.noConfusion heq0
        | cons x u' =>
          injection hw with h1 h2
          simpa using Nat.succ_le_succ (ih heq u' w h2)
      · exact absurd h (by simp)

theorem append_tail {α : Type} : ∀ (u v x y : List α), u ++ x = v ++ y →
    y.length ≤ x.length → ∃ m, x = m ++ y := by
  intro u
  induction u with
  | nil =>
    intro v x y h _
    exact ⟨v, h⟩
  | cons a u' ih =>
    intro v x y h hl
    cases v with
    | nil =>
      exfalso
      simp only [List.nil_append] at h
      rw [← h] at hl
      simp only [List.cons_append, List.length_cons, List.length_append] at hl
      omega
    | cons b v' =>
      injection h with h1 h2
      exact ih v' x y h2 hl

theorem splitFirst_of_decomp {sp w : Str} : ∀ (x s : Str), s = x ++ sp ++ w →
    ∃ a r, splitFirst sp s = some (a, r) ∧ ∃ m, r = m ++ w := by
  intro x
  induction x with
  | nil =>
    intro s hs
    have hd : dropPre sp s = some w := by
      rw [hs]; simpa using dropPre_append sp w
    exact ⟨[], w, splitFirst_of_dropPre hd, [], rfl⟩
  | cons c x' ih =>
    intro s hs
    have hs' : s = c :: (x' ++ sp ++ w) := by simpa using hs
    subst hs'
    cases hdp : dropPre sp (c :: (x' ++ sp ++ w)) with
    | some r =>
      refine ⟨[], r, splitFirst_of_dropPre hdp, ?_⟩
      have he := dropPre_some hdp
      have hlen : w.length ≤ r.length := by
        have hlc := congrArg List.length he
        simp only [List.length_cons, List.length_append] at hlc
        omega
      exact append_tail sp (c :: (x' ++ sp)) r w (by simpa using he.symm) hlen
    | none =>
      obtain ⟨a, r, hsf, m, hm⟩ := ih (x' ++ sp ++ w) rfl
      refine ⟨c :: a, r, ?_, m, hm⟩
      simp only [splitFirst]
      rw [hdp, hsf]

/-! ### Lemmas about `subAnchor` -/

theorem subAnchorF_nil (pat ins : Str) : ∀ f, subAnchorF pat ins f [] = [] := by
  intro f
  cases f with
  | zero => rfl
  | succ f' =>
    simp only [subAnchorF]
    rcases h1 : splitFirst pat ([] : Str) with _ | ⟨a, r⟩
    · simp [h1]
    · have hr : r = [] := (List.append_eq_nil.mp (splitFirst_eq h1).symm).2
      subst hr
      simp [h1, splitFirst, dropPre]

theorem subAnchorF_congr (pat ins : Str) : ∀ f1 f2 s, s.length ≤ f1 → s.length ≤ f2 →
    subAnchorF pat ins f1 s = subAnchorF pat ins f2 s := by
  intro f1
  induction f1 with
  | zero =>
    intro f2 s h1 _
    have hs : s = [] := List.eq_nil_of_length_eq_zero (Nat.le_zero.mp h1)
    subst hs
    rw [subAnchorF_nil, subAnchorF_nil]
  | succ f1' ih =>
    intro f2 s h1 h2
    cases f2 with
    | zero =>
      have hs : s = [] := List.eq_nil_of_length_eq_zero (Nat.le_zero.mp h2)
      subst hs
      rw [subAnchorF_nil, subAnchorF_nil]
    | succ f2' =>
      rcases hsf : splitFirst pat s with _ | ⟨a, r⟩
      · simp [subAnchorF, hsf]
      · rcases hnl : splitFirst ['\n'] r with _ | ⟨line, rest⟩
        · simp [subAnchorF, hsf, hnl]
        · have e1 := splitFirst_eq hsf
          have e2 := splitFirst_eq hnl
          have hlt : rest.length + 1 ≤ s.length := by
            have l1 := congrArg List.length e1
            have l2 := congrArg List.length e2
            simp only [List.length_append, List.length_cons, List.length_nil] at l1 l2
            omega
          simp only [subAnchorF, hsf, hnl]
          rw [ih f2' rest (by omega) (by omega)]

theorem subAnchor_none {pat ins s : Str} (h : splitFirst pat s = none) :
    subAnchor pat ins s = s := by
  cases s with
  | nil => rfl
  | cons c t => simp [subAnchor, List.length_cons, subAnchorF, h]

theorem subAnchor_noNl {pat ins s a r : Str} (h1 : splitFirst pat s = some (a, r))
    (h2 : splitFirst ['\n'] r = none) : subAnchor pat ins s = s := by
  cases s with
  | nil => rfl
  | cons c t => simp [subAnchor, List.length_cons, subAnchorF, h1, h2]

theorem subAnchor_step {pat ins s a r line rest : Str}
    (h1 : splitFirst pat s = some (a, r)) (h2 : splitFirst ['\n'] r = some (line, rest)) :
    subAnchor pat ins s = a ++ pat ++ line ++ '\n' :: (ins ++ subAnchor pat ins rest) := by
  cases s with
  | nil =>
    exfalso
    have h' := List.append_eq_nil.mp (splitFirst_eq h1).symm
    rw [h'.2] at h2
    simp [splitFirst, dropPre] at h2
  | cons c t =>
    have e1 := splitFirst_eq h1
    have e2 := splitFirst_eq h2
    have hle : rest.length ≤ t.length := by
      have l1 := congrArg List.length e1
      have l2 := congrArg List.length e2
      simp only [List.length_append, List.length_cons, List.length_nil] at l1 l2
      omega
    simp only [subAnchor, List.length_cons, subAnchorF, h1, h2]
    rw [subAnchorF_congr pat ins t.length rest.length rest hle (Nat.le_refl _)]

theorem subAnchor_cases (pat ins s : Str) :
    subAnchor pat ins s = s ∨ ∃ x y, subAnchor pat ins s = x ++ '\n' :: (ins ++ y) := by
  rcases h1 : splitFirst pat s with _ | ⟨a, r⟩
  · exact Or.inl (subAnchor_none h1)
  · rcases h2 : splitFirst ['\n'] r with _ | ⟨line, rest⟩
    · exact Or.inl (subAnchor_noNl h1 h2)
    · exact Or.inr ⟨a ++ pat ++ line, subAnchor pat ins rest, subAnchor_step h1 h2⟩

/-! ### Characterization of the inserter -/

theorem startsWith_append (p t : Str) : startsWith p (p ++ t) = true :=
  (startsWith_iff p (p ++ t)).mpr ⟨t, rfl⟩

theorem insertField_already {f a : Str} {v : Bool} {c : Str}
    (hp : startsWith sep c = true) (hs : searchLineStart f c = true) :
    insertField f a v c = Outcome.alreadyPresent := by
  simp [insertField, hp, hs]

theorem insertField_written {f a : Str} {v : Bool} {c c' : Str}
    (h : insertField f a v c = Outcome.written c') :
    startsWith sep c = true ∧ searchLineStart f c = false ∧
    ∃ fm p2, split2 c = [[], fm, p2] ∧ c = sep ++ fm ++ sep ++ p2 ∧
      splitFirst sep (fm ++ sep ++ p2) = some (fm, p2) ∧
      ((containsSub (a ++ [':']) fm = true ∧
          c' = sep ++ subAnchor (a ++ [':']) (newLine f v) fm ++ sep ++ p2) ∨
        (containsSub (a ++ [':']) fm = false ∧
          c' = sep ++ (rstrip fm ++ '\n' :: newLine f v) ++ sep ++ p2)) := by
  cases hb : startsWith sep c with
  | false => simp [insertField, hb] at h
  | true =>
    cases hs : searchLineStart f c with
    | true => simp [insertField, hb, hs] at h
    | false =>
      obtain ⟨t, hct⟩ := (startsWith_iff sep c).mp hb
      have hsf1 : splitFirst sep c = some ([], t) :=
        splitFirst_of_dropPre (by rw [hct]; exact dropPre_append sep t)
      rcases hsf2 : splitFirst sep t with _ | ⟨fm, p2⟩
      · have hs2 : split2 c = [[], t] := by simp [split2, hsf1, hsf2]
        simp [insertField, hb, hs, hs2] at h
      · have hs2 : split2 c = [[], fm, p2] := by simp [split2, hsf1, hsf2]
        have ht : t = fm ++ sep ++ p2 := splitFirst_eq hsf2
        have hc : c = sep ++ fm ++ sep ++ p2 := by
          rw [hct, ht]; simp [List.append_assoc]
        refine ⟨rfl, rfl, fm, p2, hs2, hc, ht ▸ hsf2, ?_⟩
        cases hcs : containsSub (a ++ [':']) fm with
        | true =>
          left
          refine ⟨rfl, ?_⟩
          simp [insertField, hb, hs, hs2, hcs] at h
          rw [← h]
          simp [List.append_assoc]
        | false =>
          right
          refine ⟨rfl, ?_⟩
          simp [insertField, hb, hs, hs2, hcs] at h
          rw [← h]
          simp [List.append_assoc]

theorem searchLineStart_mid (f : Str) (v : Bool) (u w : Str) :
    searchLineStart f (u ++ '\n' :: (newLine f v ++ w)) = true := by
  have hsh : (u ++ '\n' :: (newLine f v ++ w)) =
      u ++ ('\n' :: (f ++ [':'])) ++
        (' ' :: ((if v then "true".data else "false".data) ++ '\n' :: w)) := by
    simp [newLine, List.append_assoc]
  simp only [searchLineStart, hsh, Bool.or_eq_true]
  exact Or.inr ((containsSub_iff _ _).mpr ⟨u, _, rfl⟩)

theorem written_rerun {f a : Str} {v : Bool} {c c' : Str}
    (h : insertField f a v c = Outcome.written c') :
    c' = c ∨ insertField f a v c' = Outcome.alreadyPresent := by
  obtain ⟨hb, hs, fm, p2, hs2, hc, hsf2, hbr⟩ := insertField_written h
  rcases hbr with ⟨hcs, hc'⟩ | ⟨hcs, hc'⟩
  · rcases subAnchor_cases (a ++ [':']) (newLine f v) fm with heq | ⟨x, y, heq⟩
    · left
      rw [hc', heq]
      exact hc.symm
    · right
      have hp' : startsWith sep c' = true := by
        rw [hc']
        simp only [List.append_assoc]
        exact startsWith_append _ _
      have hsm : searchLineStart f c' = true := by
        rw [hc', heq]
        have hsh : sep ++ (x ++ '\n' :: (newLine f v ++ y)) ++ sep ++ p2 =
            (sep ++ x) ++ '\n' :: (newLine f v ++ (y ++ sep ++ p2)) := by
          simp [List.append_assoc]
        rw [hsh]
        exact searchLineStart_mid f v _ _
      exact insertField_already hp' hsm
  · right
    have hp' : startsWith sep c' = true := by
      rw [hc']
      simp only [List.append_assoc]
      exact startsWith_append _ _
    have hsm : searchLineStart f c' = true := by
      rw [hc']
      have hsh : sep ++ (rstrip fm ++ '\n' :: newLine f v) ++ sep ++ p2 =
          (sep ++ rstrip fm) ++ '\n' :: (newLine f v ++ (sep ++ p2)) := by
        simp [List.append_assoc]
      rw [hsh]
      exact searchLineStart_mid f v _ _
    exact insertField_already hp' hsm

theorem runAll_length (f a : Str) (v : Bool) : ∀ (ts : List Str) (fs : Fs),
    ((runAll f a v fs ts).2).length = ts.length := by
  intro ts
  induction ts with
  | nil => intro fs; rfl
  | cons p ps ih => intro fs; simp [runAll, ih]

/-! ### Claim theorems -/

/-- Claim C1: running the inserter twice with the same field name and value yields the same
final content as running it once; moreover, after a first run that succeeds and actually
changes the content (i.e. inserts the field line), a second run on the resulting content
reports `alreadyPresent`, hence performs no write and leaves the content unchanged. -/
theorem c1_idempotent (f a : Str) (v : Bool) (c : Str) :
    applyInsert f a v (applyInsert f a v c) = applyInsert f a v c ∧
    ∀ c', insertField f a v c = Outcome.written c' → c' ≠ c →
      insertField f a v c' = Outcome.alreadyPresent := by
  constructor
  · rcases hi : insertField f a v c with _ | _ | c'
    · simp [applyInsert, hi]
    · simp [applyInsert, hi]
    · have h1 : applyInsert f a v c = c' := by simp [applyInsert, hi]
      rw [h1]
      rcases written_rerun hi with rfl | hA
      · exact h1
      · simp [applyInsert, hA]
  · intro c' hw hne
    rcases written_rerun hw with rfl | hA
    · exact absurd rfl hne
    · exact hA

theorem c1_witness :
    insertField "archive".data "like".data true
        "---\ntitle: x\narchive: true\n---\nbody".data = Outcome.alreadyPresent :=
  (c1_idempotent "archive".data "like".data true "---\ntitle: x\n---\nbody".data).2
    "---\ntitle: x\narchive: true\n---\nbody".data (by decide) (by decide)

/-- Claim C6 counterexample: the document `---title: a\n---\nbody` does not have the
sentinel `---` as its first line, yet the routine accepts it and writes new content
instead of reporting a malformed header. -/
theorem c6_counterexample :
    ("---title: a\n---\nbody".data : Str).takeWhile (fun ch => ch != '\n') ≠ sep ∧
    add_archive_field true "---title: a\n---\nbody".data =
      Outcome.written "---title: a\narchive: true\n---\nbody".data := by
  decide

/-- Claim C6 (amended): for every document whose first three characters are not `---`
(the `content.startswith` test), the routine performs no write and reports a malformed
header. -/
theorem c6_prefix_guard (f a : Str) (v : Bool) (c : Str)
    (h : startsWith sep c = false) :
    insertField f a v c = Outcome.malformedHeader := by
  simp [insertField, h]

theorem c6_witness :
    insertField "archive".data "like".data true "no frontmatter here".data =
      Outcome.malformedHeader :=
  c6_prefix_guard "archive".data "like".data true "no frontmatter here".data (by decide)

/-- Claim C7: a target path missing from the filesystem yields `notFound` for that path,
performs no write (the remaining targets are processed from the unchanged filesystem), and
the run continues with the remaining targets. -/
theorem c7_not_found (f a : Str) (v : Bool) (fs : Fs) (p : Str) (rest : List Str)
    (h : lookupFs fs p = none) :
    runAll f a v fs (p :: rest) =
      ((runAll f a v fs rest).1, FileOutcome.notFound :: (runAll f a v fs rest).2) := by
  simp [runAll, processFile, h]

theorem c7_witness :
    runAll "archive".data "like".data true [("a".data, Entry.ok "x".data)]
        ["b".data, "a".data] =
      ((runAll "archive".data "like".data true [("a".data, Entry.ok "x".data)]
          ["a".data]).1,
        FileOutcome.notFound ::
          (runAll "archive".data "like".data true [("a".data, Entry.ok "x".data)]
            ["a".data]).2) :=
  c7_not_found "archive".data "like".data true [("a".data, Entry.ok "x".data)]
    "b".data ["a".data] (by decide)

/-- Claim C8: a per-file step whose outcome is an error (not `success`) leaves the
filesystem — in particular that file — unchanged and does not abort the run: the remaining
targets are processed from the same filesystem state, and one outcome is still recorded
for every target of the list. -/
theorem c8_error_isolated (f a : Str) (v : Bool) (fs : Fs) (p : Str) (rest : List Str)
    (h : (processFile f a v fs p).2 ≠ FileOutcome.success) :
    runAll f a v fs (p :: rest) =
      ((runAll f a v fs rest).1,
        (processFile f a v fs p).2 :: (runAll f a v fs rest).2) ∧
    ((runAll f a v fs (p :: rest)).2).length = rest.length + 1 := by
  have hfs : (processFile f a v fs p).1 = fs := by
    rcases hl : lookupFs fs p with _ | e
    · simp [processFile, hl]
    · cases e with
      | ioError => simp [processFile, hl]
      | ok content =>
        rcases hins : insertField f a v content with _ | _ | c2
        · simp [processFile, hl, hins]
        · simp [processFile, hl, hins]
        · exact absurd (by simp [processFile, hl, hins]) h
  refine ⟨?_, ?_⟩
  · simp [runAll, hfs]
  · simp [runAll, runAll_length]

theorem c8_witness :
    runAll "archive".data "like".data true [("a".data, Entry.ok "x".data)] ["a".data] =
      ((runAll "archive".data "like".data true [("a".data, Entry.ok "x".data)] []).1,
        (processFile "archive".data "like".data true [("a".data, Entry.ok "x".data)]
            "a".data).2 ::
          (runAll "archive".data "like".data true [("a".data, Entry.ok "x".data)]
            []).2) ∧
    ((runAll "archive".data "like".data true [("a".data, Entry.ok "x".data)]
        ["a".data]).2).length = 0 + 1 :=
  c8_error_isolated "archive".data "like".data true [("a".data, Entry.ok "x".data)]
    "a".data [] (by decide)

/-- Claim C2 counterexample: inserting `archive: true` into `---\ntitle: x\n\n---\nbody`
succeeds, but the written content is not the input plus one inserted line: the fallback
branch also trimmed the header's trailing blank line, so the length differs from the
input's length plus the inserted line's length. -/
theorem c2_counterexample :
    add_archive_field true "---\ntitle: x\n\n---\nbody".data =
      Outcome.written "---\ntitle: x\narchive: true\n---\nbody".data ∧
    ("---\ntitle: x\narchive: true\n---\nbody".data : Str).length ≠
      ("---\ntitle: x\n\n---\nbody".data : Str).length +
        ("archive: true\n".data : Str).length := by
  decide

/-- Claim C2 (amended): for every document on which insertion succeeds, the entire
remainder from the closing sentinel onward is byte-identical before and after.  When the
anchor key is absent the new header is the old header with its trailing whitespace trimmed
and the new line appended; when the anchor branch is taken and the anchor pattern matches
exactly one place, the header bytes are preserved with exactly the one new line inserted
immediately after the matched line. -/
theorem c2_frame (f a : Str) (v : Bool) (c c' : Str)
    (h : insertField f a v c = Outcome.written c') :
    ∃ fm p2, c = sep ++ fm ++ sep ++ p2 ∧
      ((containsSub (a ++ [':']) fm = false ∧
          c' = sep ++ (rstrip fm ++ '\n' :: newLine f v) ++ sep ++ p2) ∨
        (containsSub (a ++ [':']) fm = true ∧
          c' = sep ++ subAnchor (a ++ [':']) (newLine f v) fm ++ sep ++ p2 ∧
          ∀ u r ln t, splitFirst (a ++ [':']) fm = some (u, r) →
            splitFirst ['\n'] r = some (ln, t) → splitFirst (a ++ [':']) t = none →
            c' = sep ++ (u ++ (a ++ [':']) ++ ln ++ '\n' :: (newLine f v ++ t)) ++
              sep ++ p2)) := by
  obtain ⟨hb, hs, fm, p2, hs2, hc, hsf2, hbr⟩ := insertField_written h
  refine ⟨fm, p2, hc, ?_⟩
  rcases hbr with ⟨hcs, hc'⟩ | ⟨hcs, hc'⟩
  · right
    refine ⟨hcs, hc', ?_⟩
    intro u r ln t h1 h2 h3
    rw [hc', subAnchor_step h1 h2, subAnchor_none h3]
  · left
    exact ⟨hcs, hc'⟩

theorem c2_witness :
    ∃ fm p2, ("---\ntitle: x\n---\nbody".data : Str) = sep ++ fm ++ sep ++ p2 ∧
      ((containsSub ("like".data ++ [':']) fm = false ∧
          "---\ntitle: x\narchive: true\n---\nbody".data =
            sep ++ (rstrip fm ++ '\n' :: newLine "archive".data true) ++ sep ++ p2) ∨
        (containsSub ("like".data ++ [':']) fm = true ∧
          "---\ntitle: x\narchive: true\n---\nbody".data =
            sep ++ subAnchor ("like".data ++ [':']) (newLine "archive".data true) fm ++
              sep ++ p2 ∧
          ∀ u r ln t, splitFirst ("like".data ++ [':']) fm = some (u, r) →
            splitFirst ['\n'] r = some (ln, t) →
            splitFirst ("like".data ++ [':']) t = none →
            "---\ntitle: x\narchive: true\n---\nbody".data =
              sep ++ (u ++ ("like".data ++ [':']) ++ ln ++
                '\n' :: (newLine "archive".data true ++ t)) ++ sep ++ p2)) :=
  c2_frame "archive".data "like".data true "---\ntitle: x\n---\nbody".data
    "---\ntitle: x\narchive: true\n---\nbody".data (by decide)

/-- Claim C3 counterexample: with anchor `like`, the header of
`---\nalike: 1\nblike: 2\n---\nbody` matches the anchor pattern on two lines, and the code
inserts one `archive: true` line after each of them — two inserted lines, not exactly one:
the output's length exceeds the input's length by twice the inserted line's length. -/
theorem c3_counterexample :
    add_archive_field true "---\nalike: 1\nblike: 2\n---\nbody".data =
      Outcome.written
        "---\nalike: 1\narchive: true\nblike: 2\narchive: true\n---\nbody".data ∧
    ("---\nalike: 1\narchive: true\nblike: 2\narchive: true\n---\nbody".data : Str).length ≠
      ("---\nalike: 1\nblike: 2\n---\nbody".data : Str).length +
        ("archive: true\n".data : Str).length := by
  decide

/-- Claim C3 (amended): the substitution inserts the new line after every match of the
anchor pattern; in particular, when the anchor pattern matches exactly one place in the
header (first match at `u`, matched line tail `ln`, no later match in `t`), exactly one
new line is inserted immediately after the matched line and all other bytes are kept. -/
theorem c3_single_match (f a : Str) (v : Bool) (c c' p0 fm p2 u r ln t : Str)
    (h : insertField f a v c = Outcome.written c')
    (hs2 : split2 c = [p0, fm, p2])
    (h1 : splitFirst (a ++ [':']) fm = some (u, r))
    (h2 : splitFirst ['\n'] r = some (ln, t))
    (h3 : splitFirst (a ++ [':']) t = none) :
    c' = sep ++ (u ++ (a ++ [':']) ++ ln ++ '\n' :: (newLine f v ++ t)) ++ sep ++ p2 := by
  obtain ⟨hb, hs, fm', p2', hs2', hc, hsf2, hbr⟩ := insertField_written h
  rw [hs2] at hs2'
  obtain ⟨hp0, hfm, hp2⟩ : p0 = [] ∧ fm = fm' ∧ p2 = p2' := by simpa using hs2'
  subst hfm
  subst hp2
  rcases hbr with ⟨hcs, hc'⟩ | ⟨hcs, hc'⟩
  · rw [hc', subAnchor_step h1 h2, subAnchor_none h3]
  · exfalso
    have hcs' : containsSub (a ++ [':']) fm = true :=
      (containsSub_iff _ _).mpr ⟨u, r, splitFirst_eq h1⟩
    simp [hcs'] at hcs

theorem c3_witness :
    ("---\nlike: true\narchive: true\n---\nbody".data : Str) =
      sep ++ ("\n".data ++ ("like".data ++ [':']) ++ " true".data ++
        '\n' :: (newLine "archive".data true ++ [])) ++ sep ++ "\nbody".data :=
  c3_single_match "archive".data "like".data true "---\nlike: true\n---\nbody".data
    "---\nlike: true\narchive: true\n---\nbody".data [] "\nlike: true\n".data
    "\nbody".data "\n".data " true\n".data " true".data []
    (by decide) (by decide) (by decide) (by decide) (by decide)

/-- A header line starting with the anchor key makes the anchor key a substring of the
header (the converse fails: the substring test also fires on suffixes of longer keys). -/
theorem lineStart_containsSub {a s : Str} (h : searchLineStart a s = true) :
    containsSub (a ++ [':']) s = true := by
  simp only [searchLineStart, Bool.or_eq_true] at h
  rcases h with h | h
  · obtain ⟨t, rfl⟩ := (startsWith_iff _ _).mp h
    exact (containsSub_iff _ _).mpr ⟨[], t, by simp⟩
  · obtain ⟨u, w, hw⟩ := (containsSub_iff _ _).mp h
    refine (containsSub_iff _ _).mpr ⟨u ++ ['\n'], w, ?_⟩
    rw [hw]
    simp [List.append_assoc]

/-- Claim C4 counterexample: with anchor `like`, the header
`\nunlike: x\ntitle: t\n` contains `like:` only inside the longer key `unlike:` — no
header line starts with `like:` — yet the anchor branch is taken: the new line is inserted
after the `unlike: x` line rather than appended at the end of the header. -/
theorem c4_counterexample :
    containsSub ("like".data ++ [':']) "\nunlike: x\ntitle: t\n".data = true ∧
    searchLineStart "like".data "\nunlike: x\ntitle: t\n".data = false ∧
    add_archive_field true "---\nunlike: x\ntitle: t\n---\nbody".data =
      Outcome.written "---\nunlike: x\narchive: true\ntitle: t\n---\nbody".data ∧
    add_archive_field true "---\nunlike: x\ntitle: t\n---\nbody".data ≠
      Outcome.written "---\nunlike: x\ntitle: t\narchive: true\n---\nbody".data := by
  decide

/-- Claim C4 (amended): the anchor branch is taken whenever the header contains a line
starting with `anchor:`; but the branch condition is substring containment, so it can also
be taken when the anchor key occurs only mid-line or as a suffix of a longer key. -/
theorem c4_anchor_taken (f a : Str) (v : Bool) (c c' p0 fm p2 : Str)
    (h : insertField f a v c = Outcome.written c')
    (hs2 : split2 c = [p0, fm, p2])
    (hline : searchLineStart a fm = true) :
    c' = sep ++ subAnchor (a ++ [':']) (newLine f v) fm ++ sep ++ p2 := by
  obtain ⟨hb, hs, fm', p2', hs2', hc, hsf2, hbr⟩ := insertField_written h
  rw [hs2] at hs2'
  obtain ⟨hp0, hfm, hp2⟩ : p0 = [] ∧ fm = fm' ∧ p2 = p2' := by simpa using hs2'
  subst hfm
  subst hp2
  rcases hbr with ⟨hcs, hc'⟩ | ⟨hcs, hc'⟩
  · exact hc'
  · exfalso
    simp [lineStart_containsSub hline] at hcs

theorem c4_witness :
    ("---\nlike: y\narchive: true\n---\nb".data : Str) =
      sep ++ subAnchor ("like".data ++ [':']) (newLine "archive".data true)
        "\nlike: y\n".data ++ sep ++ "\nb".data :=
  c4_anchor_taken "archive".data "like".data true "---\nlike: y\n---\nb".data
    "---\nlike: y\narchive: true\n---\nb".data [] "\nlike: y\n".data "\nb".data
    (by decide) (by decide) (by decide)

/-- Claim C5: when the header does not contain the anchor key, the new field line — with
the boolean rendered as the lowercase literal `true`/`false` — is appended as the last
line of the header, before the closing sentinel, after trimming trailing whitespace from
the header. -/
theorem c5_fallback (f a : Str) (v : Bool) (c c' p0 fm p2 : Str)
    (h : insertField f a v c = Outcome.written c')
    (hs2 : split2 c = [p0, fm, p2])
    (hno : containsSub (a ++ [':']) fm = false) :
    c' = sep ++ (rstrip fm ++ '\n' ::
      (f ++ [':', ' '] ++ (if v then "true".data else "false".data) ++ ['\n'])) ++
      sep ++ p2 := by
  obtain ⟨hb, hs, fm', p2', hs2', hc, hsf2, hbr⟩ := insertField_written h
  rw [hs2] at hs2'
  obtain ⟨hp0, hfm, hp2⟩ : p0 = [] ∧ fm = fm' ∧ p2 = p2' := by simpa using hs2'
  subst hfm
  subst hp2
  rcases hbr with ⟨hcs, hc'⟩ | ⟨hcs, hc'⟩
  · exfalso
    simp [hcs] at hno
  · rw [hc']
    rfl

theorem c5_witness :
    ("---\ntitle: x\narchive: true\n---\nbody".data : Str) =
      sep ++ (rstrip "\ntitle: x \n".data ++ '\n' ::
        ("archive".data ++ [':', ' '] ++
          (if true then "true".data else "false".data) ++ ['\n'])) ++
      sep ++ "\nbody".data :=
  c5_fallback "archive".data "like".data true "---\ntitle: x \n---\nbody".data
    "---\ntitle: x\narchive: true\n---\nbody".data [] "\ntitle: x \n".data "\nbody".data
    (by decide) (by decide) (by decide)

/-- Claim C9: for every document accepted for modification, the header is the text
strictly between the first and second occurrences of the substring `---` anywhere in the
content (the split is leftmost: the header contains no `---`, and no decomposition of the
remainder puts `---` earlier), and everything from the second occurrence onward is carried
over verbatim into the output. -/
theorem c9_header_between (f a : Str) (v : Bool) (c c' p0 fm p2 : Str)
    (h : insertField f a v c = Outcome.written c')
    (hs2 : split2 c = [p0, fm, p2]) :
    c = sep ++ fm ++ sep ++ p2 ∧
    containsSub sep fm = false ∧
    (∀ u w, fm ++ sep ++ p2 = u ++ sep ++ w → fm.length ≤ u.length) ∧
    ∃ fmNew, c' = sep ++ fmNew ++ sep ++ p2 := by
  obtain ⟨hb, hs, fm', p2', hs2', hc, hsf2, hbr⟩ := insertField_written h
  rw [hs2] at hs2'
  obtain ⟨hp0, hfm, hp2⟩ : p0 = [] ∧ fm = fm' ∧ p2 = p2' := by simpa using hs2'
  subst hfm
  subst hp2
  have hleft : ∀ u w, fm ++ sep ++ p2 = u ++ sep ++ w → fm.length ≤ u.length :=
    fun u w hw => splitFirst_leftmost hsf2 u w hw
  refine ⟨hc, ?_, hleft, ?_⟩
  · cases hcs : containsSub sep fm with
    | false => rfl
    | true =>
      exfalso
      obtain ⟨x, y, hxy⟩ := (containsSub_iff _ _).mp hcs
      have hle := hleft x (y ++ sep ++ p2) (by rw [hxy]; simp [List.append_assoc])
      have hlen := congrArg List.length hxy
      simp [sep] at hlen
      omega
  · rcases hbr with ⟨_, hc'⟩ | ⟨_, hc'⟩
    · exact ⟨_, hc'⟩
    · exact ⟨_, hc'⟩

theorem c9_witness :
    ("---\ntitle: a---b\n---\nbody".data : Str) =
      sep ++ "\ntitle: a".data ++ sep ++ "b\n---\nbody".data ∧
    containsSub sep "\ntitle: a".data = false ∧
    (∀ u w, ("\ntitle: a".data : Str) ++ sep ++ "b\n---\nbody".data = u ++ sep ++ w →
      ("\ntitle: a".data : Str).length ≤ u.length) ∧
    ∃ fmNew, ("---\ntitle: a\narchive: true\n---b\n---\nbody".data : Str) =
      sep ++ fmNew ++ sep ++ "b\n---\nbody".data :=
  c9_header_between "archive".data "like".data true
    "---\ntitle: a---b\n---\nbody".data
    "---\ntitle: a\narchive: true\n---b\n---\nbody".data
    [] "\ntitle: a".data "b\n---\nbody".data (by decide) (by decide)

/-- Claim C10: for every document that is read and does not already contain the field, the
routine reports a malformed header (and performs no write) exactly when the content does
not begin with `---` or cannot be decomposed around two disjoint occurrences of `---`; in
particular a document whose first line merely begins with `---` is accepted. -/
theorem c10_malformed_iff (f a : Str) (v : Bool) (c : Str)
    (hnf : searchLineStart f c = false) :
    (insertField f a v c = Outcome.malformedHeader ↔
      (startsWith sep c = false ∨ ¬ ∃ x y z : Str, c = x ++ sep ++ y ++ sep ++ z)) := by
  cases hb : startsWith sep c with
  | false => simp [insertField, hb]
  | true =>
    rcases hq : splitFirst sep c with _ | ⟨a0, r⟩
    · exfalso
      obtain ⟨t, hct⟩ := (startsWith_iff sep c).mp hb
      have hsome : splitFirst sep c = some ([], t) :=
        splitFirst_of_dropPre (by rw [hct]; exact dropPre_append sep t)
      rw [hq] at hsome
      exact Option.noConfusion hsome
    · rcases hq2 : splitFirst sep r with _ | ⟨fm, p2⟩
      · have hs2 : split2 c = [a0, r] := by simp [split2, hq, hq2]
        have hmal : insertField f a v c = Outcome.malformedHeader := by
          simp [insertField, hb, hnf, hs2]
        refine iff_of_true hmal (Or.inr ?_)
        rintro ⟨x, y, z, hxyz⟩
        obtain ⟨a1, r1, hsf, m, hm⟩ :=
          @splitFirst_of_decomp sep (y ++ sep ++ z) x c
            (by rw [hxyz]; simp [List.append_assoc])
        rw [hq] at hsf
        simp only [Option.some.injEq, Prod.mk.injEq] at hsf
        obtain ⟨rfl, rfl⟩ := hsf
        obtain ⟨a2, r2, hsf2, _, _⟩ :=
          @splitFirst_of_decomp sep z (m ++ y) r
            (by rw [hm]; simp [List.append_assoc])
        rw [hq2] at hsf2
        exact Option.noConfusion hsf2
      · have hs2 : split2 c = [a0, fm, p2] := by simp [split2, hq, hq2]
        have hex : ∃ x y z : Str, c = x ++ sep ++ y ++ sep ++ z := by
          refine ⟨a0, fm, p2, ?_⟩
          rw [splitFirst_eq hq, splitFirst_eq hq2]
          simp [List.append_assoc]
        refine iff_of_false ?_ ?_
        · intro hm
          simp [insertField, hb, hnf, hs2] at hm
        · rintro (hfalse | hnex)
          · exact Bool.noConfusion hfalse
          · exact hnex hex

theorem c10_witness :
    (insertField "archive".data "like".data true "---title: a\n---\nbody".data =
        Outcome.malformedHeader ↔
      (startsWith sep "---title: a\n---\nbody".data = false ∨
        ¬ ∃ x y z : Str, "---title: a\n---\nbody".data =
          x ++ sep ++ y ++ sep ++ z)) :=
  c10_malformed_iff "archive".data "like".data true "---title: a\n---\nbody".data
    (by decide)

/-- Sanity: the inserter behaves like `add_archive_field` on the spec's worked example
(header `title: x` / `like: a`, anchored insertion after the `like` line). -/
theorem add_archive_field_example :
    add_archive_field true "---\nlike: a\n---\nbody".data =
      Outcome.written "---\nlike: a\narchive: true\n---\nbody".data := by
  decide

/-- Sanity: `add_like_field` anchors on `archive` and renders `False` as `false`. -/
theorem add_like_field_example :
    add_like_field false "---\narchive: true\n---\nb".data =
      Outcome.written "---\narchive: true\nlike: false\n---\nb".data := by
  decide
